import Mathlib

/-
Verification of the core bulk-loading pipeline of `cmd/bulk_load_es/main.go`
(influxdb-comparisons).

The embedding below is a shallow model of the three relevant routines:

* `scan` (main.go:424-491): reads lines from stdin, groups them into
  batches of `itemsPerBatch` items (2 lines = 1 item), submits each batch
  to `batchChan`, closes `inputDone`, and performs two end-of-run checks
  (line-count parity, expected-total consistency).
* `processBatches` (main.go:494-541): a worker loop that consumes batches,
  optionally compresses them, delivers them to its HTTP writer, recycles
  buffers, and emits telemetry points.
* the worker-pool construction in `main` (main.go:363-370): worker `i` is
  built with endpoint `daemonUrls[i % len(daemonUrls)]`.

Modelling conventions:

* A line of input is an `InLine`: its raw bytes (newline stripped, as
  `bufio.Scanner` does) as a `List Nat`, together with the pair of values
  that `common.CheckTotalValues` reports for that line.  The function
  `common.CheckTotalValues` itself is not part of the given sources (only
  its caller is), so it is modelled from the spec as an oracle attached to
  each line; see `checkTotalValues`.
* `bytes.Buffer` contents are `List Nat` (raw bytes); `buf.Len()` is
  `List.length`.  Go `int`/`int64` counters are Lean `Int`; every counter
  in `scan` stays far below 2^63 for any input list, so overflow cannot
  occur and plain `Int` is a faithful model.  `linesRead % 2` only ever
  sees a nonnegative dividend, where Go's truncated `%` and Lean's `Int`
  `%` agree.
* Channel submissions, the `close(inputDone)` signal and the two
  `log.Fatalf` sites are recorded as an ordered list of `ScanEvent`s;
  `log.Fatalf` terminates the process, so a fatal event ends the trace and
  the function result is `none`.
* The endpoint URLs and telemetry points are abstracted as `Nat`
  identifiers; the gzip compressor (`fasthttp.WriteGzip`) and the HTTP
  writer are external collaborators and are abstracted as a function
  parameter and a trace event respectively.
-/

/-- One line of input as delivered by `bufio.Scanner`: its raw bytes with
the trailing newline stripped, plus the two values that
`common.CheckTotalValues` reports for this line (the in-band totals
record of the generator).  An ordinary data line carries `(0, 0)`. -/
structure InLine where
  bytes : List Nat
  totalPoints : Int
  totalValues : Int
deriving DecidableEq

/-- An ordinary data line. -/
def mkData (bs : List Nat) : InLine :=
  ⟨bs, 0, 0⟩

/-- An in-band totals record declaring `p` total points and `v` total
values. -/
def mkTotals (p v : Int) : InLine :=
  ⟨[], p, v⟩

/-- Modelled from the spec: `common.CheckTotalValues` is not among the
given source files (only its call site in `scan`, main.go:437, is).  The
spec treats the expected total as "a Source-reported side value" embedded
in-band by the generator, so each line carries the values the check
reports for it and the check just reads them off.  The error return of
the real function is not modelled: no claim concerns it and the spec
gives it no behaviour beyond being fatal. -/
def checkTotalValues (l : InLine) : Int × Int :=
  (l.totalPoints, l.totalValues)

/-- Observable events of `scan`, in program order: a batch submission to
`batchChan` (main.go:460/476), the `close(inputDone)` signal
(main.go:480), and the two `log.Fatalf` sites (main.go:484, 487).
The `items` field of `submit` is ghost instrumentation recording the
value of `itemsThisBatch` at the moment of submission. -/
inductive ScanEvent
  | submit (buf : List Nat) (items : Int)
  | done
  | fatalLineCount
  | fatalCountMismatch
deriving DecidableEq

/-- The mutable state of `scan` (main.go:425-432) plus the event trace. -/
structure ScanState where
  buf : List Nat
  linesRead : Int
  itemsRead : Int
  bytesRead : Int
  totalPoints : Int
  totalValues : Int
  itemsThisBatch : Int
  events : List ScanEvent
deriving DecidableEq

/-- Configuration: the `-item-limit` flag (`-1` = unlimited) and the
`itemsPerBatch` argument of `scan` (the `-batch-size` flag). -/
structure ScanConfig where
  itemLimit : Int
  itemsPerBatch : Int
deriving DecidableEq

/-- State of `scan` on entry (main.go:425-432): fresh buffer, all
counters zero, nothing submitted. -/
def initState : ScanState :=
  ⟨[], 0, 0, 0, 0, 0, 0, []⟩

/-- Batch submission (main.go:458-463): add `buf.Len()` to `bytesRead`,
send the buffer on `batchChan`, take a fresh zero-length buffer from the
pool, reset `itemsThisBatch`. -/
def submitBuf (s : ScanState) : ScanState :=
  { s with
    bytesRead := s.bytesRead + s.buf.length
    events := s.events ++ [ScanEvent.submit s.buf s.itemsThisBatch]
    buf := []
    itemsThisBatch := 0 }

/-- Item-boundary step (main.go:451-454): every second line completes an
item, incrementing `itemsRead` and `itemsThisBatch`. -/
def bumpItem (s : ScanState) : ScanState :=
  if s.linesRead % 2 == 0 then
    { s with itemsRead := s.itemsRead + 1, itemsThisBatch := s.itemsThisBatch + 1 }
  else s

/-- Batch-cut step (main.go:456-463): compute `hitLimit` and submit the
current buffer when the batch is full or the limit was hit.  The `Bool`
is `hitLimit`, i.e. whether the loop `break`s after this line. -/
def maybeSubmit (cfg : ScanConfig) (s : ScanState) : ScanState × Bool :=
  let hitLimit := decide (0 ≤ cfg.itemLimit) && decide (cfg.itemLimit ≤ s.itemsRead)
  (if s.itemsThisBatch == cfg.itemsPerBatch || hitLimit then submitBuf s else s, hitLimit)

/-- Body of the `scan` loop for a line that is not a totals record
(main.go:445-467): count the line, append its bytes and a newline to the
buffer, cross an item boundary every second line, then cut a batch when
the batch is full or the item limit is hit. -/
def scanDataLine (cfg : ScanConfig) (s : ScanState) (l : InLine) : ScanState × Bool :=
  maybeSubmit cfg
    (bumpItem { s with linesRead := s.linesRead + 1, buf := s.buf ++ l.bytes ++ [10] })

/-- One iteration of the `scan` loop (main.go:435-468).  The Go code
assigns `totalPoints, totalValues` from `CheckTotalValues` on every line
and `continue`s (skipping the line entirely) when either is positive. -/
def scanLine (cfg : ScanConfig) (s : ScanState) (l : InLine) : ScanState × Bool :=
  let tp := (checkTotalValues l).1
  let tv := (checkTotalValues l).2
  if 0 < tp ∨ 0 < tv then
    ({ s with totalPoints := tp, totalValues := tv }, false)
  else
    scanDataLine cfg { s with totalPoints := tp, totalValues := tv } l

/-- The `for scanner.Scan()` loop of `scan`: process lines in order,
stopping early when `hitLimit` triggers a `break` (main.go:465-467). -/
def scanLoop (cfg : ScanConfig) (s : ScanState) : List InLine → ScanState
  | [] => s
  | l :: rest =>
    if (scanLine cfg s l).2 then (scanLine cfg s l).1
    else scanLoop cfg (scanLine cfg s l).1 rest

/-- Result of `scan`: the event trace and, unless a `log.Fatalf` fired,
the returned triple `(itemsRead, bytesRead, totalValues)`. -/
structure ScanResult where
  events : List ScanEvent
  ret : Option (Int × Int × Int)
deriving DecidableEq

/-- Epilogue of `scan` (main.go:474-490): submit the final partial batch
if non-empty (without touching `bytesRead`), close `inputDone`, then run
the two fatal checks in order. -/
def finishScan (s : ScanState) : ScanResult :=
  let s1 := if 0 < s.itemsThisBatch then
      { s with events := s.events ++ [ScanEvent.submit s.buf s.itemsThisBatch] }
    else s
  let s2 := { s1 with events := s1.events ++ [ScanEvent.done] }
  if s2.linesRead % 2 ≠ 0 then
    ⟨s2.events ++ [ScanEvent.fatalLineCount], none⟩
  else if s2.itemsRead ≠ s2.totalPoints then
    ⟨s2.events ++ [ScanEvent.fatalCountMismatch], none⟩
  else
    ⟨s2.events, some (s2.itemsRead, s2.bytesRead, s2.totalValues)⟩

/-- The whole of `scan` (main.go:424-491) on a finite input stream. -/
def scanGo (cfg : ScanConfig) (input : List InLine) : ScanResult :=
  finishScan (scanLoop cfg initState input)

/-- The fatal tail that `finishScan` appends after the `done` event. -/
def finishTail (s : ScanState) : List ScanEvent :=
  if s.linesRead % 2 ≠ 0 then [ScanEvent.fatalLineCount]
  else if s.itemsRead ≠ s.totalPoints then [ScanEvent.fatalCountMismatch]
  else []

/-- The sequence of buffers submitted to `batchChan`, extracted from a
trace: this is exactly the content of the bounded queue that the worker
pool drains. -/
def queueOf : List ScanEvent → List (List Nat)
  | [] => []
  | ScanEvent.submit b _ :: es => b :: queueOf es
  | ScanEvent.done :: es => queueOf es
  | ScanEvent.fatalLineCount :: es => queueOf es
  | ScanEvent.fatalCountMismatch :: es => queueOf es

/-- Total byte length of the submitted buffers recorded in a trace. -/
def submittedBytes : List ScanEvent → Int
  | [] => 0
  | ScanEvent.submit b _ :: es => (b.length : Int) + submittedBytes es
  | ScanEvent.done :: es => submittedBytes es
  | ScanEvent.fatalLineCount :: es => submittedBytes es
  | ScanEvent.fatalCountMismatch :: es => submittedBytes es

/-- Total byte length of a list of batches. -/
def queueBytes : List (List Nat) → Int
  | [] => 0
  | b :: bs => (b.length : Int) + queueBytes bs

/-- The three global flags that `processBatches` reads: `doLoad`
(`-do-load`), `useGzip` (`-gzip`), and whether `telemetrySink` is
non-nil. -/
structure WorkerFlags where
  doLoad : Bool
  useGzip : Bool
  telemetry : Bool
deriving DecidableEq

/-- Observable actions of a worker, in program order: a call to
`w.WriteLineProtocol(body, compressed)` against endpoint `dst`
(main.go:510/516), a `Reset` + `bufPool.Put` of a buffer (main.go:512-513
and 524-525), and the emission of a telemetry point (main.go:529-537). -/
inductive WAction
  | deliver (dst : Nat) (body : List Nat) (compressed : Bool)
  | putPool
  | telemetryPoint (dst : Nat) (workerId : Nat) (workerReqNum : Int) (gzip : Bool) (bodyBytes : Int)
deriving DecidableEq

/-- Processing of a single dequeued batch by `processBatches`
(main.go:498-538).  `w` is the worker's endpoint (the `HTTPWriter` host it
was constructed with), `gzip` abstracts `fasthttp.WriteGzip`, `label` is
the worker id label and `batchesSeen` the per-worker counter after its
increment for this batch.  In dry-run mode (`!doLoad`) the loop
`continue`s immediately: nothing is delivered and the buffer is not
recycled.  The writer is an external collaborator; no claim concerns its
error return, so delivery is recorded as an event and modelled as
succeeding. -/
def processOne (w : Nat) (f : WorkerFlags) (gzip : List Nat → List Nat)
    (label : Nat) (batchesSeen : Int) (batch : List Nat) : List WAction :=
  if !f.doLoad then []
  else
    (if f.useGzip then
      [WAction.deliver w (gzip batch) true, WAction.putPool]
    else
      [WAction.deliver w batch false])
    ++ [WAction.putPool]
    ++ (if f.telemetry then
        [WAction.telemetryPoint w label batchesSeen f.useGzip
          ((if f.useGzip then (gzip batch).length else batch.length : Nat) : Int)]
      else [])

/-- The `for batch := range batchChan` loop of `processBatches`
(main.go:496-539) applied to the sequence of batches this worker
dequeues.  `batchesSeen` is incremented at the top of each iteration. -/
def processBatches (w : Nat) (f : WorkerFlags) (gzip : List Nat → List Nat)
    (label : Nat) (batchesSeen : Int) : List (List Nat) → List WAction
  | [] => []
  | b :: rest =>
    processOne w f gzip label (batchesSeen + 1) b
      ++ processBatches w f gzip label (batchesSeen + 1) rest

/-- Total byte length of the bodies submitted to the sink in a worker
trace. -/
def deliveredBytes : List WAction → Int
  | [] => 0
  | WAction.deliver _ body _ :: as => (body.length : Int) + deliveredBytes as
  | WAction.putPool :: as => deliveredBytes as
  | WAction.telemetryPoint _ _ _ _ _ :: as => deliveredBytes as

/-- Endpoint selection at pool-creation time (main.go:364): worker `i`
is constructed with `daemonUrls[i % len(daemonUrls)]`.  URLs are
abstracted as `Nat` identifiers; `main` fatals when the URL list is
empty, so the list is nonempty whenever this is used. -/
def workerUrl (urls : List Nat) (i : Nat) : Nat :=
  urls.getD (i % urls.length) 0

/-- The endpoint index a given worker index is bound to. -/
def workerEndpoint (numUrls i : Nat) : Nat :=
  i % numUrls

/-- An admissible batch-to-worker assignment under Go channel semantics:
workers race to dequeue from `batchChan`, so any function sending each of
the `numBatches` queue positions to some worker index below `numWorkers`
is a possible execution. -/
def AdmissibleAssign (numWorkers numBatches : Nat) (assign : Nat → Nat) : Prop :=
  ∀ b, b < numBatches → assign b < numWorkers

/-- Endpoint `j` receives at least one batch under the given
assignment. -/
def endpointGetsBatch (numUrls numBatches : Nat) (assign : Nat → Nat) (j : Nat) : Prop :=
  ∃ b, b < numBatches ∧ workerEndpoint numUrls (assign b) = j

/-- State of the telemetry intake channel created by
`report.TelemetryRunAsync`: a buffered Go channel with capacity `cap`
and pending points `queue` (points abstracted as `Nat` ids). -/
structure TelemetryChan where
  cap : Nat
  queue : List Nat
deriving DecidableEq

/-- Go semantics of the worker's telemetry emission `telemetrySink <- p`
(main.go:537): an unconditional send on a buffered channel.  The send
completes (and the worker may proceed to its next dequeue) exactly when
the buffer has free space; on a full buffer the sender blocks, modelled
as `none`.  There is no `select`/`default` branch in the code, so no
drop path exists. -/
def telemetrySend (ch : TelemetryChan) (p : Nat) : Option TelemetryChan :=
  if ch.queue.length < ch.cap then some ⟨ch.cap, ch.queue ++ [p]⟩ else none

/-! ### Helper lemmas about traces -/

theorem submittedBytes_append (a b : List ScanEvent) :
    submittedBytes (a ++ b) = submittedBytes a + submittedBytes b := by
  induction a with
  | nil => simp [submittedBytes]
  | cons e es ih => cases e <;> simp [submittedBytes, ih] <;> ring

theorem queueOf_append (a b : List ScanEvent) :
    queueOf (a ++ b) = queueOf a ++ queueOf b := by
  induction a with
  | nil => simp [queueOf]
  | cons e es ih => cases e <;> simp [queueOf, ih]

theorem queueBytes_append (a b : List (List Nat)) :
    queueBytes (a ++ b) = queueBytes a + queueBytes b := by
  induction a with
  | nil => simp [queueBytes]
  | cons x xs ih => simp [queueBytes, ih]; ring

theorem queueBytes_queueOf (es : List ScanEvent) :
    queueBytes (queueOf es) = submittedBytes es := by
  induction es with
  | nil => rfl
  | cons e es ih => cases e <;> simp [queueOf, submittedBytes, queueBytes, ih]

theorem deliveredBytes_append (a b : List WAction) :
    deliveredBytes (a ++ b) = deliveredBytes a + deliveredBytes b := by
  induction a with
  | nil => simp [deliveredBytes]
  | cons e es ih => cases e <;> simp [deliveredBytes, ih] <;> ring

/-! ### Helper lemmas about one scan step -/

theorem scanLine_skip (cfg : ScanConfig) (s : ScanState) (l : InLine)
    (h : 0 < (checkTotalValues l).1 ∨ 0 < (checkTotalValues l).2) :
    scanLine cfg s l
      = ({ s with totalPoints := (checkTotalValues l).1,
                  totalValues := (checkTotalValues l).2 }, false) := by
  simp [scanLine, h]

theorem scanLine_no_break (cfg : ScanConfig) (s : ScanState) (l : InLine)
    (h : cfg.itemLimit < 0) : (scanLine cfg s l).2 = false := by
  by_cases hskip : 0 < (checkTotalValues l).1 ∨ 0 < (checkTotalValues l).2
  · simp [scanLine, hskip]
  · have h0 : ¬ (0 ≤ cfg.itemLimit) := by omega
    simp [scanLine, hskip, scanDataLine, maybeSubmit, h0]

theorem scanLoop_append (cfg : ScanConfig) (s : ScanState) (xs ys : List InLine)
    (h : cfg.itemLimit < 0) :
    scanLoop cfg s (xs ++ ys) = scanLoop cfg (scanLoop cfg s xs) ys := by
  induction xs generalizing s with
  | nil => simp [scanLoop]
  | cons l rest ih =>
    simp only [List.cons_append, scanLoop, scanLine_no_break cfg s l h]
    simp [ih]

theorem scanLine_linesRead_data (cfg : ScanConfig) (s : ScanState) (l : InLine)
    (h : ¬ (0 < (checkTotalValues l).1 ∨ 0 < (checkTotalValues l).2)) :
    (scanLine cfg s l).1.linesRead = s.linesRead + 1 := by
  simp only [scanLine, h, if_false, scanDataLine, maybeSubmit, bumpItem]
  split <;> split <;> simp [submitBuf]

theorem scanLine_itemsRead_data (cfg : ScanConfig) (s : ScanState) (l : InLine)
    (h : ¬ (0 < (checkTotalValues l).1 ∨ 0 < (checkTotalValues l).2)) :
    (scanLine cfg s l).1.itemsRead
      = if (s.linesRead + 1) % 2 == 0 then s.itemsRead + 1 else s.itemsRead := by
  simp only [scanLine, h, if_false, scanDataLine, maybeSubmit, bumpItem]
  split <;> split <;> simp_all [submitBuf]

theorem scanLine_counts_inv (cfg : ScanConfig) (s : ScanState) (l : InLine)
    (h0 : 0 ≤ s.linesRead) (h1 : s.itemsRead = s.linesRead / 2) :
    0 ≤ (scanLine cfg s l).1.linesRead ∧
    (scanLine cfg s l).1.itemsRead = (scanLine cfg s l).1.linesRead / 2 := by
  by_cases hskip : 0 < (checkTotalValues l).1 ∨ 0 < (checkTotalValues l).2
  · simp [scanLine_skip cfg s l hskip]; omega
  · rw [scanLine_itemsRead_data cfg s l hskip, scanLine_linesRead_data cfg s l hskip]
    by_cases hpar : (s.linesRead + 1) % 2 = 0 <;> simp [hpar] <;> omega

theorem scanLoop_counts (cfg : ScanConfig) (h : cfg.itemLimit < 0) (ls : List InLine)
    (hdata : ∀ l ∈ ls, ¬ (0 < (checkTotalValues l).1 ∨ 0 < (checkTotalValues l).2)) :
    ∀ s : ScanState, 0 ≤ s.linesRead → s.itemsRead = s.linesRead / 2 →
      (scanLoop cfg s ls).linesRead = s.linesRead + ls.length ∧
      (scanLoop cfg s ls).itemsRead = (scanLoop cfg s ls).linesRead / 2 := by
  induction ls with
  | nil => intro s h0 h1; simp [scanLoop]; omega
  | cons l rest ih =>
    intro s h0 h1
    have hl := hdata l (by simp)
    have hrest : ∀ x ∈ rest, ¬ (0 < (checkTotalValues x).1 ∨ 0 < (checkTotalValues x).2) := by
      intro x hx; exact hdata x (by simp [hx])
    have hcounts := scanLine_counts_inv cfg s l h0 h1
    have hlines := scanLine_linesRead_data cfg s l hl
    simp only [scanLoop, scanLine_no_break cfg s l h, Bool.false_eq_true, if_false]
    have := ih hrest (scanLine cfg s l).1 hcounts.1 hcounts.2
    refine ⟨?_, this.2⟩
    rw [this.1, hlines]
    simp only [List.length_cons]
    push_cast
    ring

theorem finishScan_events (s : ScanState) :
    (finishScan s).events
      = s.events
        ++ (if 0 < s.itemsThisBatch then [ScanEvent.submit s.buf s.itemsThisBatch] else [])
        ++ [ScanEvent.done] ++ finishTail s := by
  unfold finishScan finishTail
  by_cases hitb : 0 < s.itemsThisBatch <;>
  by_cases hpar : s.linesRead % 2 ≠ 0 <;>
  by_cases hm : s.itemsRead ≠ s.totalPoints <;>
  simp [hitb, hpar, hm]

theorem finishScan_ret (s : ScanState) :
    (finishScan s).ret
      = if s.linesRead % 2 ≠ 0 then none
        else if s.itemsRead ≠ s.totalPoints then none
        else some (s.itemsRead, s.bytesRead, s.totalValues) := by
  unfold finishScan
  by_cases hitb : 0 < s.itemsThisBatch <;>
  by_cases hpar : s.linesRead % 2 ≠ 0 <;>
  by_cases hm : s.itemsRead ≠ s.totalPoints <;>
  simp [hitb, hpar, hm]

theorem finishTail_cases (s : ScanState) :
    finishTail s = [] ∨ finishTail s = [ScanEvent.fatalLineCount]
      ∨ finishTail s = [ScanEvent.fatalCountMismatch] := by
  unfold finishTail
  by_cases hpar : s.linesRead % 2 ≠ 0 <;>
  by_cases hm : s.itemsRead ≠ s.totalPoints <;>
  simp [hpar, hm]

/-! ### Small-step facts about `bumpItem` and `maybeSubmit` -/

theorem bumpItem_itemsThisBatch (s : ScanState) :
    s.itemsThisBatch ≤ (bumpItem s).itemsThisBatch ∧
    (bumpItem s).itemsThisBatch ≤ s.itemsThisBatch + 1 := by
  unfold bumpItem; split <;> simp

theorem bumpItem_events (s : ScanState) : (bumpItem s).events = s.events := by
  unfold bumpItem; split <;> rfl

theorem bumpItem_bytesRead (s : ScanState) : (bumpItem s).bytesRead = s.bytesRead := by
  unfold bumpItem; split <;> rfl

theorem bumpItem_buf (s : ScanState) : (bumpItem s).buf = s.buf := by
  unfold bumpItem; split <;> rfl

theorem maybeSubmit_fst (cfg : ScanConfig) (s : ScanState) :
    (maybeSubmit cfg s).1 = submitBuf s ∨
      ((maybeSubmit cfg s).1 = s ∧ (s.itemsThisBatch == cfg.itemsPerBatch) = false) := by
  by_cases hcond : (s.itemsThisBatch == cfg.itemsPerBatch
      || (decide (0 ≤ cfg.itemLimit) && decide (cfg.itemLimit ≤ s.itemsRead))) = true
  · left; simp [maybeSubmit, hcond]
  · right
    refine ⟨by simp [maybeSubmit, hcond], ?_⟩
    simp only [Bool.or_eq_true, not_or, Bool.not_eq_true] at hcond
    exact hcond.1

theorem submitBuf_events (x : ScanState) :
    (submitBuf x).events = x.events ++ [ScanEvent.submit x.buf x.itemsThisBatch] := rfl

theorem submitBuf_bytesRead (x : ScanState) :
    (submitBuf x).bytesRead = x.bytesRead + x.buf.length := rfl

theorem maybeSubmit_batch_inv (cfg : ScanConfig) (x : ScanState) (hB : 1 ≤ cfg.itemsPerBatch)
    (h0 : 0 ≤ x.itemsThisBatch) (h1 : x.itemsThisBatch ≤ cfg.itemsPerBatch)
    (h2 : ∀ b n, ScanEvent.submit b n ∈ x.events → n ≤ cfg.itemsPerBatch) :
    0 ≤ (maybeSubmit cfg x).1.itemsThisBatch ∧
    (maybeSubmit cfg x).1.itemsThisBatch < cfg.itemsPerBatch ∧
    ∀ b n, ScanEvent.submit b n ∈ (maybeSubmit cfg x).1.events → n ≤ cfg.itemsPerBatch := by
  rcases maybeSubmit_fst cfg x with hsub | ⟨hid, hne⟩
  · rw [hsub]
    refine ⟨by simp [submitBuf], by simp [submitBuf]; omega, ?_⟩
    intro b n hmem
    rw [submitBuf_events] at hmem
    rcases List.mem_append.1 hmem with hmem | hmem
    · exact h2 b n hmem
    · simp only [List.mem_singleton, ScanEvent.submit.injEq] at hmem
      omega
  · rw [hid]
    rw [beq_eq_false_iff_ne] at hne
    exact ⟨h0, by omega, h2⟩

theorem maybeSubmit_events_mem (cfg : ScanConfig) (x : ScanState) :
    ∀ e ∈ (maybeSubmit cfg x).1.events,
      e ∈ x.events ∨ ∃ b n, e = ScanEvent.submit b n := by
  rcases maybeSubmit_fst cfg x with hsub | ⟨hid, _⟩
  · rw [hsub, submitBuf_events]
    intro e he
    rcases List.mem_append.1 he with he | he
    · exact Or.inl he
    · simp only [List.mem_singleton] at he
      exact Or.inr ⟨x.buf, x.itemsThisBatch, he⟩
  · rw [hid]; exact fun e he => Or.inl he

theorem maybeSubmit_bytes (cfg : ScanConfig) (x : ScanState)
    (h : submittedBytes x.events = x.bytesRead) :
    submittedBytes (maybeSubmit cfg x).1.events = (maybeSubmit cfg x).1.bytesRead := by
  rcases maybeSubmit_fst cfg x with hsub | ⟨hid, _⟩
  · rw [hsub, submitBuf_events, submitBuf_bytesRead, submittedBytes_append]
    simp [submittedBytes, h]
  · rw [hid]; exact h

theorem bumpItem_itemsThisBatch_cases (x : ScanState) :
    (bumpItem x).itemsThisBatch = x.itemsThisBatch ∨
    (bumpItem x).itemsThisBatch = x.itemsThisBatch + 1 := by
  unfold bumpItem; split <;> simp

theorem scanDataLine_batch_inv (cfg : ScanConfig) (s : ScanState) (l : InLine)
    (hB : 1 ≤ cfg.itemsPerBatch)
    (h0 : 0 ≤ s.itemsThisBatch) (h1 : s.itemsThisBatch < cfg.itemsPerBatch)
    (h2 : ∀ b n, ScanEvent.submit b n ∈ s.events → n ≤ cfg.itemsPerBatch) :
    0 ≤ (scanDataLine cfg s l).1.itemsThisBatch ∧
    (scanDataLine cfg s l).1.itemsThisBatch < cfg.itemsPerBatch ∧
    ∀ b n, ScanEvent.submit b n ∈ (scanDataLine cfg s l).1.events → n ≤ cfg.itemsPerBatch := by
  unfold scanDataLine
  refine maybeSubmit_batch_inv cfg _ hB ?_ ?_ ?_
  · rcases bumpItem_itemsThisBatch_cases
        { s with linesRead := s.linesRead + 1, buf := s.buf ++ l.bytes ++ [10] } with h | h <;>
      rw [h]
    · show 0 ≤ s.itemsThisBatch; omega
    · show 0 ≤ s.itemsThisBatch + 1; omega
  · rcases bumpItem_itemsThisBatch_cases
        { s with linesRead := s.linesRead + 1, buf := s.buf ++ l.bytes ++ [10] } with h | h <;>
      rw [h]
    · show s.itemsThisBatch ≤ cfg.itemsPerBatch; omega
    · show s.itemsThisBatch + 1 ≤ cfg.itemsPerBatch; omega
  · rw [bumpItem_events]
    exact h2

theorem scanLine_batch_inv (cfg : ScanConfig) (s : ScanState) (l : InLine)
    (hB : 1 ≤ cfg.itemsPerBatch)
    (h0 : 0 ≤ s.itemsThisBatch) (h1 : s.itemsThisBatch < cfg.itemsPerBatch)
    (h2 : ∀ b n, ScanEvent.submit b n ∈ s.events → n ≤ cfg.itemsPerBatch) :
    0 ≤ (scanLine cfg s l).1.itemsThisBatch ∧
    (scanLine cfg s l).1.itemsThisBatch < cfg.itemsPerBatch ∧
    ∀ b n, ScanEvent.submit b n ∈ (scanLine cfg s l).1.events → n ≤ cfg.itemsPerBatch := by
  by_cases hskip : 0 < (checkTotalValues l).1 ∨ 0 < (checkTotalValues l).2
  · rw [scanLine_skip cfg s l hskip]; exact ⟨h0, h1, h2⟩
  · simp only [scanLine, hskip, if_false]
    exact scanDataLine_batch_inv cfg _ l hB h0 h1 h2

theorem scanLine_events_mem (cfg : ScanConfig) (s : ScanState) (l : InLine) :
    ∀ e ∈ (scanLine cfg s l).1.events,
      e ∈ s.events ∨ ∃ b n, e = ScanEvent.submit b n := by
  by_cases hskip : 0 < (checkTotalValues l).1 ∨ 0 < (checkTotalValues l).2
  · rw [scanLine_skip cfg s l hskip]; exact fun e he => Or.inl he
  · simp only [scanLine, hskip, if_false]
    unfold scanDataLine
    intro e he
    rcases maybeSubmit_events_mem cfg _ e he with hmem | hmem
    · rw [bumpItem_events] at hmem
      exact Or.inl hmem
    · exact Or.inr hmem

theorem scanLine_bytes (cfg : ScanConfig) (s : ScanState) (l : InLine)
    (h : submittedBytes s.events = s.bytesRead) :
    submittedBytes (scanLine cfg s l).1.events = (scanLine cfg s l).1.bytesRead := by
  by_cases hskip : 0 < (checkTotalValues l).1 ∨ 0 < (checkTotalValues l).2
  · rw [scanLine_skip cfg s l hskip]; exact h
  · simp only [scanLine, hskip, if_false]
    unfold scanDataLine
    refine maybeSubmit_bytes cfg _ ?_
    rw [bumpItem_events, bumpItem_bytesRead]
    exact h

theorem scanLoop_batch_inv (cfg : ScanConfig) (ls : List InLine) (hB : 1 ≤ cfg.itemsPerBatch) :
    ∀ s : ScanState, 0 ≤ s.itemsThisBatch → s.itemsThisBatch < cfg.itemsPerBatch →
    (∀ b n, ScanEvent.submit b n ∈ s.events → n ≤ cfg.itemsPerBatch) →
      0 ≤ (scanLoop cfg s ls).itemsThisBatch ∧
      (scanLoop cfg s ls).itemsThisBatch < cfg.itemsPerBatch ∧
      ∀ b n, ScanEvent.submit b n ∈ (scanLoop cfg s ls).events → n ≤ cfg.itemsPerBatch := by
  induction ls with
  | nil => intro s h0 h1 h2; exact ⟨h0, h1, h2⟩
  | cons l rest ih =>
    intro s h0 h1 h2
    have hline := scanLine_batch_inv cfg s l hB h0 h1 h2
    by_cases hbrk : (scanLine cfg s l).2 = true
    · simp [scanLoop, hbrk]
      exact hline
    · simp only [Bool.not_eq_true] at hbrk
      simp [scanLoop, hbrk]
      exact ih (scanLine cfg s l).1 hline.1 hline.2.1 hline.2.2

theorem scanLoop_events_mem (cfg : ScanConfig) (ls : List InLine) :
    ∀ s : ScanState, ∀ e ∈ (scanLoop cfg s ls).events,
      e ∈ s.events ∨ ∃ b n, e = ScanEvent.submit b n := by
  induction ls with
  | nil => intro s e he; exact Or.inl he
  | cons l rest ih =>
    intro s e he
    by_cases hbrk : (scanLine cfg s l).2 = true
    · simp [scanLoop, hbrk] at he
      exact scanLine_events_mem cfg s l e he
    · simp only [Bool.not_eq_true] at hbrk
      simp [scanLoop, hbrk] at he
      rcases ih (scanLine cfg s l).1 e he with hmem | hmem
      · exact scanLine_events_mem cfg s l e hmem
      · exact Or.inr hmem

theorem scanLoop_bytes (cfg : ScanConfig) (ls : List InLine) :
    ∀ s : ScanState, submittedBytes s.events = s.bytesRead →
      submittedBytes (scanLoop cfg s ls).events = (scanLoop cfg s ls).bytesRead := by
  induction ls with
  | nil => intro s h; exact h
  | cons l rest ih =>
    intro s h
    by_cases hbrk : (scanLine cfg s l).2 = true
    · simp [scanLoop, hbrk]
      exact scanLine_bytes cfg s l h
    · simp only [Bool.not_eq_true] at hbrk
      simp [scanLoop, hbrk]
      exact ih (scanLine cfg s l).1 (scanLine_bytes cfg s l h)

/-! ### Worker-side lemmas -/

theorem processBatches_dryRun (w : Nat) (gz tel : Bool) (g : List Nat → List Nat)
    (label : Nat) (n : Int) (batches : List (List Nat)) :
    processBatches w ⟨false, gz, tel⟩ g label n batches = [] := by
  induction batches generalizing n with
  | nil => rfl
  | cons b rest ih => simp [processBatches, processOne, ih]

theorem deliveredBytes_processBatches (w : Nat) (tel : Bool) (g : List Nat → List Nat)
    (label : Nat) (batches : List (List Nat)) :
    ∀ n : Int, deliveredBytes (processBatches w ⟨true, false, tel⟩ g label n batches)
      = queueBytes batches := by
  induction batches with
  | nil => intro n; rfl
  | cons b rest ih =>
    intro n
    simp only [processBatches, deliveredBytes_append, ih, queueBytes]
    cases tel <;> simp [processOne, deliveredBytes]

theorem processBatches_deliver_dst (w : Nat) (f : WorkerFlags) (g : List Nat → List Nat)
    (label : Nat) (batches : List (List Nat)) :
    ∀ (n : Int) (d : Nat) (body : List Nat) (c : Bool),
      WAction.deliver d body c ∈ processBatches w f g label n batches → d = w := by
  induction batches with
  | nil => intro n d body c h; simp [processBatches] at h
  | cons b rest ih =>
    intro n d body c h
    simp only [processBatches, List.mem_append] at h
    rcases h with h | h
    · unfold processOne at h
      by_cases hload : f.doLoad <;> by_cases hgz : f.useGzip <;> by_cases htel : f.telemetry <;>
        simp [hload, hgz, htel] at h <;> tauto
    · exact ih (n + 1) d body c h

/-! ### Claim theorems -/

/-- C1: The claim says that when the scanner stops early because the item
limit was reached, the expected-total consistency check is skipped and
the run completes successfully.  The code (main.go:486-488) runs the
check unconditionally; after an early limit stop `totalPoints` is still 0
(the trailing totals record was never read), so `log.Fatalf` fires with a
count mismatch — even though the code's own comment says `totalPoints` is
unknown in exactly this case.  This theorem evaluates the model at such
an input: `-item-limit 1`, a stream of two items and a trailing totals
record declaring 2 points.  The scanner stops at the limit
(`itemsRead = 1`, second conjunct), submits the batch, signals `done`,
and then aborts with `fatalCountMismatch` instead of completing. -/
theorem scan_item_limit_check_not_skipped :
    scanGo ⟨1, 1000⟩ [mkData [97], mkData [98], mkData [99], mkData [100], mkTotals 2 0]
      = ⟨[ScanEvent.submit [97, 10, 98, 10] 1, ScanEvent.done, ScanEvent.fatalCountMismatch],
         none⟩ ∧
    (scanLoop ⟨1, 1000⟩ initState
        [mkData [97], mkData [98], mkData [99], mkData [100], mkTotals 2 0]).itemsRead = 1 := by
  decide

/-- C9: every line that the in-band totals check recognizes as a totals
record (`CheckTotalValues` reports a positive `totalPoints` or
`totalValues`) is skipped entirely by the scanner (main.go:437-440): the
buffer, `linesRead`, `itemsRead`, `bytesRead` and the submission trace
are unchanged, only the remembered totals are updated, and the loop does
not break. -/
theorem scan_skips_totals_line (cfg : ScanConfig) (s : ScanState) (l : InLine)
    (h : 0 < (checkTotalValues l).1 ∨ 0 < (checkTotalValues l).2) :
    (scanLine cfg s l).1.buf = s.buf ∧
    (scanLine cfg s l).1.linesRead = s.linesRead ∧
    (scanLine cfg s l).1.itemsRead = s.itemsRead ∧
    (scanLine cfg s l).1.bytesRead = s.bytesRead ∧
    (scanLine cfg s l).1.events = s.events ∧
    (scanLine cfg s l).1.totalPoints = (checkTotalValues l).1 ∧
    (scanLine cfg s l).1.totalValues = (checkTotalValues l).2 ∧
    (scanLine cfg s l).2 = false := by
  rw [scanLine_skip cfg s l h]
  exact ⟨rfl, rfl, rfl, rfl, rfl, rfl, rfl, rfl⟩

/-- Witness for C9 at a concrete totals record and state. -/
theorem scan_skips_totals_line_witness :
    (0 < (checkTotalValues (mkTotals 3 4)).1 ∨ 0 < (checkTotalValues (mkTotals 3 4)).2) ∧
    ((scanLine ⟨-1, 5⟩ initState (mkTotals 3 4)).1.buf = initState.buf ∧
     (scanLine ⟨-1, 5⟩ initState (mkTotals 3 4)).1.linesRead = initState.linesRead ∧
     (scanLine ⟨-1, 5⟩ initState (mkTotals 3 4)).1.itemsRead = initState.itemsRead ∧
     (scanLine ⟨-1, 5⟩ initState (mkTotals 3 4)).1.bytesRead = initState.bytesRead ∧
     (scanLine ⟨-1, 5⟩ initState (mkTotals 3 4)).1.events = initState.events ∧
     (scanLine ⟨-1, 5⟩ initState (mkTotals 3 4)).1.totalPoints
        = (checkTotalValues (mkTotals 3 4)).1 ∧
     (scanLine ⟨-1, 5⟩ initState (mkTotals 3 4)).1.totalValues
        = (checkTotalValues (mkTotals 3 4)).2 ∧
     (scanLine ⟨-1, 5⟩ initState (mkTotals 3 4)).2 = false) :=
  ⟨by decide, scan_skips_totals_line ⟨-1, 5⟩ initState (mkTotals 3 4) (by decide)⟩

/-- C3 counterexample: with `-do-load=false` a dequeued batch is dropped
by `continue` (main.go:498-500) before the `batch.Reset()` /
`bufPool.Put(batch)` of the delivery path (main.go:524-525): the dry-run
trace contains no pool return at all, while the delivery-path trace for
the same batch does. -/
theorem dry_run_recycle_counterexample :
    WAction.putPool ∈ processBatches 0 ⟨true, false, false⟩ (fun b => b) 0 0 [[97]] ∧
    WAction.putPool ∉ processBatches 0 ⟨false, false, false⟩ (fun b => b) 0 0 [[97]] := by
  decide

/-- C3 amended: in load-disabled (dry-run) mode a worker that dequeues a
batch discards it without delivering, but — contrary to the claim — it
does not reset the batch's buffer and does not return it to the buffer
pool: the `continue` at main.go:499 skips the whole body, so the dry-run
trace is empty (no delivery, no pool return, no telemetry). -/
theorem dry_run_discards_batch (w : Nat) (gz tel : Bool) (g : List Nat → List Nat)
    (label : Nat) (n : Int) (batches : List (List Nat)) :
    processBatches w ⟨false, gz, tel⟩ g label n batches = [] :=
  processBatches_dryRun w gz tel g label n batches

/-- C4 counterexample: the telemetry emission `telemetrySink <- p`
(main.go:537) is an unconditional channel send; on a full intake buffer
(capacity 1, one pending point) the send does not complete — the worker
blocks instead of dropping the point. -/
theorem telemetry_send_blocks_counterexample :
    telemetrySend ⟨1, [0]⟩ 1 = none := by decide

/-- C4 amended: the worker's telemetry emission is a plain blocking
channel send, not a bounded-wait-or-drop: it fails to complete exactly
when the intake queue is full (so a stalled telemetry path does block the
delivery loop), and when there is space the point is enqueued — it is
never dropped. -/
theorem telemetry_send_blocks_iff_full (ch : TelemetryChan) (p : Nat) :
    (telemetrySend ch p = none ↔ ch.cap ≤ ch.queue.length) ∧
    (ch.queue.length < ch.cap → telemetrySend ch p = some ⟨ch.cap, ch.queue ++ [p]⟩) := by
  constructor
  · unfold telemetrySend
    split
    · rename_i h
      simp
      omega
    · rename_i h
      simp
      omega
  · intro h
    unfold telemetrySend
    simp [h]

/-- C6 counterexample: workers race to dequeue from `batchChan`, so the
schedule in which worker 0 dequeues both of 2 batches (2 workers, 2
endpoints) is admissible; under it endpoint 1 receives no batch even
though the total number of batches equals the number of endpoints. -/
theorem endpoint_coverage_counterexample :
    AdmissibleAssign 2 2 (fun _ => 0) ∧ ¬ endpointGetsBatch 2 2 (fun _ => 0) 1 := by
  constructor
  · intro b hb
    show 0 < 2
    decide
  · rintro ⟨b, hb, he⟩
    simp [workerEndpoint] at he

/-- C6 amended: worker `i` is bound at pool-creation time to endpoint
`i % M` (main.go:364) and every delivery it ever makes goes to that
endpoint; but coverage of all `M` endpoints when there are at least `M`
batches is only a possibility (e.g. under a round-robin schedule), not a
guarantee — the batch-to-worker assignment is scheduling-dependent. -/
theorem worker_endpoint_round_robin (urls : List Nat) (numWorkers numBatches : Nat) :
    (∀ (i : Nat) (f : WorkerFlags) (g : List Nat → List Nat) (label : Nat) (n : Int)
        (batches : List (List Nat)) (d : Nat) (body : List Nat) (c : Bool),
        WAction.deliver d body c ∈ processBatches (workerUrl urls i) f g label n batches →
          d = urls.getD (i % urls.length) 0) ∧
    (0 < urls.length → urls.length ≤ numWorkers → urls.length ≤ numBatches →
      ∃ assign, AdmissibleAssign numWorkers numBatches assign ∧
        ∀ j, j < urls.length → endpointGetsBatch urls.length numBatches assign j) := by
  constructor
  · intro i f g label n batches d body c h
    rw [processBatches_deliver_dst (workerUrl urls i) f g label batches n d body c h]
    rfl
  · intro hpos hw hb
    refine ⟨fun b => b % numWorkers, ?_, ?_⟩
    · intro b hbb
      exact Nat.mod_lt b (by omega)
    · intro j hj
      refine ⟨j, by omega, ?_⟩
      unfold workerEndpoint
      show j % numWorkers % urls.length = j
      rw [Nat.mod_eq_of_lt (by omega : j < numWorkers)]
      exact Nat.mod_eq_of_lt hj

theorem submittedBytes_scanGo (cfg : ScanConfig) (input : List InLine) :
    submittedBytes (scanGo cfg input).events
      = (scanLoop cfg initState input).bytesRead
        + (if 0 < (scanLoop cfg initState input).itemsThisBatch
           then ((scanLoop cfg initState input).buf.length : Int) else 0) := by
  have hloop := scanLoop_bytes cfg input initState rfl
  rw [scanGo, finishScan_events]
  rcases finishTail_cases (scanLoop cfg initState input) with h | h | h <;> rw [h] <;>
    by_cases hitb : 0 < (scanLoop cfg initState input).itemsThisBatch <;>
      simp [hitb, submittedBytes_append, submittedBytes, hloop]

theorem scanGo_ret_some (cfg : ScanConfig) (input : List InLine) (i b v : Int)
    (h : (scanGo cfg input).ret = some (i, b, v)) :
    i = (scanLoop cfg initState input).itemsRead ∧
    b = (scanLoop cfg initState input).bytesRead ∧
    v = (scanLoop cfg initState input).totalValues := by
  rw [scanGo, finishScan_ret] at h
  by_cases h1 : (scanLoop cfg initState input).linesRead % 2 ≠ 0
  · rw [if_pos h1] at h; simp at h
  · rw [if_neg h1] at h
    by_cases h2 : (scanLoop cfg initState input).itemsRead
        ≠ (scanLoop cfg initState input).totalPoints
    · rw [if_pos h2] at h; simp at h
    · rw [if_neg h2] at h
      simp only [Option.some.injEq, Prod.mk.injEq] at h
      exact ⟨h.1.symm, h.2.1.symm, h.2.2.symm⟩

/-- C2 counterexample: `-batch-size 2`, one complete item ("a", "b") and
a totals record declaring 1 point.  The run completes successfully and
the scanner reports `bytesRead = 0` — the final partial batch is
submitted at main.go:475-477 without the `bytesRead += buf.Len()` of the
in-loop path — yet the sinks receive its 4 bytes, so the round-trip
equality fails. -/
theorem round_trip_bytes_counterexample :
    (scanGo ⟨-1, 2⟩ [mkData [97], mkData [98], mkTotals 1 0]).ret = some (1, 0, 0) ∧
    deliveredBytes (processBatches 0 ⟨true, false, false⟩ (fun b => b) 0 0
        (queueOf (scanGo ⟨-1, 2⟩ [mkData [97], mkData [98], mkTotals 1 0]).events)) = 4 ∧
    deliveredBytes (processBatches 0 ⟨true, false, false⟩ (fun b => b) 0 0
        (queueOf (scanGo ⟨-1, 2⟩ [mkData [97], mkData [98], mkTotals 1 0]).events))
      ≠ (scanLoop ⟨-1, 2⟩ initState [mkData [97], mkData [98], mkTotals 1 0]).bytesRead := by
  decide

/-- C2 amended: with load enabled and compression disabled, the bytes
submitted to the Sinks over all batches equal the scanner's `bytesRead`
plus the length of the final partial batch when one is emitted at end of
input (the code does not add that batch's length to `bytesRead`,
main.go:475-477); equality with the reported bytes-read therefore holds
exactly when the input ends on a batch boundary.  The second conjunct
ties the reported value to the model's counter: whenever the run
completes, the returned bytes-read is the loop's `bytesRead`. -/
theorem delivered_bytes_round_trip (cfg : ScanConfig) (input : List InLine)
    (w label : Nat) (tel : Bool) (g : List Nat → List Nat) (n : Int) :
    deliveredBytes (processBatches w ⟨true, false, tel⟩ g label n
        (queueOf (scanGo cfg input).events))
      = (scanLoop cfg initState input).bytesRead
        + (if 0 < (scanLoop cfg initState input).itemsThisBatch
           then ((scanLoop cfg initState input).buf.length : Int) else 0) ∧
    ∀ i b v, (scanGo cfg input).ret = some (i, b, v)
        → b = (scanLoop cfg initState input).bytesRead := by
  constructor
  · rw [deliveredBytes_processBatches, queueBytes_queueOf, submittedBytes_scanGo]
  · intro i b v h
    exact (scanGo_ret_some cfg input i b v h).2.1

/-- C5: for every batch-size configuration `B ≥ 1` and every input, each
batch the scanner submits to the queue carries at most `B` items
(main.go:451-463), and when the loop ends with a non-empty partial batch
that batch is still submitted (main.go:475-477), immediately before the
`done` signal. -/
theorem scan_batch_size_bound (cfg : ScanConfig) (input : List InLine)
    (hB : 1 ≤ cfg.itemsPerBatch) :
    (∀ b n, ScanEvent.submit b n ∈ (scanGo cfg input).events → n ≤ cfg.itemsPerBatch) ∧
    (0 < (scanLoop cfg initState input).itemsThisBatch →
      ∃ pre post, (scanGo cfg input).events
        = pre ++ ScanEvent.submit (scanLoop cfg initState input).buf
              (scanLoop cfg initState input).itemsThisBatch :: ScanEvent.done :: post) := by
  have hinv := scanLoop_batch_inv cfg input hB initState (by decide)
    (by show (0 : Int) < cfg.itemsPerBatch; omega)
    (by intro b n h; simp [initState] at h)
  constructor
  · intro b n hmem
    rw [scanGo, finishScan_events] at hmem
    simp only [List.append_assoc, List.mem_append] at hmem
    rcases hmem with h | h | h | h
    · exact hinv.2.2 b n h
    · by_cases hitb : 0 < (scanLoop cfg initState input).itemsThisBatch
      · rw [if_pos hitb] at h
        simp only [List.mem_singleton, ScanEvent.submit.injEq] at h
        have := hinv.2.1
        omega
      · rw [if_neg hitb] at h
        simp at h
    · simp at h
    · rcases finishTail_cases (scanLoop cfg initState input) with ht | ht | ht <;>
        rw [ht] at h <;> simp at h
  · intro hitb
    refine ⟨(scanLoop cfg initState input).events,
      finishTail (scanLoop cfg initState input), ?_⟩
    rw [scanGo, finishScan_events, if_pos hitb]
    simp

/-- Witness for C5: `-batch-size 2`, one complete item — the final
partial batch (1 item) is submitted right before `done`. -/
theorem scan_batch_size_bound_witness :
    (1 : Int) ≤ 2 ∧
    ∃ pre post, (scanGo ⟨-1, 2⟩ [mkData [97], mkData [98]]).events
      = pre ++ ScanEvent.submit (scanLoop ⟨-1, 2⟩ initState [mkData [97], mkData [98]]).buf
            (scanLoop ⟨-1, 2⟩ initState [mkData [97], mkData [98]]).itemsThisBatch
          :: ScanEvent.done :: post :=
  ⟨by decide,
   (scan_batch_size_bound ⟨-1, 2⟩ [mkData [97], mkData [98]] (by decide)).2 (by decide)⟩

/-- C10: the scanner closes `inputDone` (the `done` event, main.go:480)
before the line-count parity check and the expected-total check
(main.go:483-488): on every run the trace contains exactly one `done`,
everything before it is a batch submission, and any input-format fatal
event comes after it. -/
theorem scan_done_once_before_checks (cfg : ScanConfig) (input : List InLine) :
    ∃ pre post, (scanGo cfg input).events = pre ++ ScanEvent.done :: post ∧
      (∀ e ∈ pre, ∃ b n, e = ScanEvent.submit b n) ∧
      (∀ e ∈ post, e = ScanEvent.fatalLineCount ∨ e = ScanEvent.fatalCountMismatch) := by
  refine ⟨(scanLoop cfg initState input).events
      ++ (if 0 < (scanLoop cfg initState input).itemsThisBatch
          then [ScanEvent.submit (scanLoop cfg initState input).buf
                  (scanLoop cfg initState input).itemsThisBatch]
          else []),
    finishTail (scanLoop cfg initState input), ?_, ?_, ?_⟩
  · rw [scanGo, finishScan_events]
    simp [List.append_assoc]
  · intro e he
    rcases List.mem_append.1 he with h | h
    · rcases scanLoop_events_mem cfg input initState e h with h0 | h0
      · simp [initState] at h0
      · exact h0
    · by_cases hitb : 0 < (scanLoop cfg initState input).itemsThisBatch
      · rw [if_pos hitb] at h
        simp only [List.mem_singleton] at h
        exact ⟨_, _, h⟩
      · rw [if_neg hitb] at h
        simp at h
  · intro e he
    rcases finishTail_cases (scanLoop cfg initState input) with ht | ht | ht <;>
      rw [ht] at he <;> simp at he <;> simp [he]

/-- C7: for every input of data lines whose count is a multiple of the
per-item line count 2 and which is not cut short by the item limit
(`-item-limit -1`), the scanner's reported items-read equals
total-lines / 2 (main.go:445-454).  The input carries the generator's
trailing totals record declaring that same count, so the run completes
and returns the value. -/
theorem scan_items_read_eq_lines_div_two (cfg : ScanConfig) (hlim : cfg.itemLimit < 0)
    (ls : List (List Nat)) (hne : ls ≠ []) (heven : ls.length % 2 = 0) (v : Int) :
    ∃ b, (scanGo cfg (ls.map mkData ++ [mkTotals ((ls.length : Int) / 2) v])).ret
      = some ((ls.length : Int) / 2, b, v) := by
  have hdata : ∀ l ∈ ls.map mkData,
      ¬ (0 < (checkTotalValues l).1 ∨ 0 < (checkTotalValues l).2) := by
    intro l hl
    rcases List.mem_map.1 hl with ⟨bs, _, rfl⟩
    simp [checkTotalValues, mkData]
  have hcounts := scanLoop_counts cfg hlim (ls.map mkData) hdata initState (by decide) (by decide)
  have hlr : (scanLoop cfg initState (ls.map mkData)).linesRead = (ls.length : Int) := by
    rw [hcounts.1]
    simp [initState]
  have h0 : 0 < ls.length := List.length_pos.2 hne
  have hp : 0 < (ls.length : Int) / 2 := by omega
  have hsk : 0 < (checkTotalValues (mkTotals ((ls.length : Int) / 2) v)).1
      ∨ 0 < (checkTotalValues (mkTotals ((ls.length : Int) / 2) v)).2 := Or.inl hp
  refine ⟨(scanLoop cfg initState (ls.map mkData)).bytesRead, ?_⟩
  rw [scanGo, scanLoop_append cfg initState _ _ hlim]
  simp only [scanLoop, scanLine_skip cfg _ _ hsk, Bool.false_eq_true, if_false]
  rw [finishScan_ret]
  have hir : (scanLoop cfg initState (ls.map mkData)).itemsRead = (ls.length : Int) / 2 := by
    rw [hcounts.2, hlr]
  have hpar : ¬ ((scanLoop cfg initState (ls.map mkData)).linesRead % 2 ≠ 0) := by
    rw [hlr]; omega
  simp [hpar, hir, hlr, checkTotalValues, mkTotals]
  omega

/-- Witness for C7: four data lines (two items) and the matching totals
record; the run reports items-read 2 = 4 / 2. -/
theorem scan_items_read_eq_lines_div_two_witness :
    ((-1 : Int) < 0) ∧ (([[97], [98], [99], [100]] : List (List Nat)) ≠ []) ∧
    (List.length ([[97], [98], [99], [100]] : List (List Nat)) % 2 = 0) ∧
    ∃ b, (scanGo ⟨-1, 2⟩ ((([[97], [98], [99], [100]] : List (List Nat)).map mkData)
          ++ [mkTotals ((List.length ([[97], [98], [99], [100]] : List (List Nat)) : Int) / 2)
                7])).ret
      = some ((List.length ([[97], [98], [99], [100]] : List (List Nat)) : Int) / 2, b, 7) :=
  ⟨by decide, by decide, by decide,
   scan_items_read_eq_lines_div_two ⟨-1, 2⟩ (by decide) [[97], [98], [99], [100]]
     (by decide) (by decide) 7⟩

/-- C8: for every input of data lines whose count is not a multiple of 2
and which the scanner reads to exhaustion (`-item-limit -1`), the run
raises the input-format fatal (main.go:483-485) after the `done` signal
and never returns a result — so no RunStats summary is ever produced. -/
theorem scan_odd_lines_fatal (cfg : ScanConfig) (hlim : cfg.itemLimit < 0)
    (ls : List (List Nat)) (hodd : ls.length % 2 = 1) :
    (scanGo cfg (ls.map mkData)).ret = none ∧
    ∃ pre, (scanGo cfg (ls.map mkData)).events = pre ++ [ScanEvent.fatalLineCount] := by
  have hdata : ∀ l ∈ ls.map mkData,
      ¬ (0 < (checkTotalValues l).1 ∨ 0 < (checkTotalValues l).2) := by
    intro l hl
    rcases List.mem_map.1 hl with ⟨bs, _, rfl⟩
    simp [checkTotalValues, mkData]
  have hcounts := scanLoop_counts cfg hlim (ls.map mkData) hdata initState (by decide) (by decide)
  have hlr : (scanLoop cfg initState (ls.map mkData)).linesRead = (ls.length : Int) := by
    rw [hcounts.1]
    simp [initState]
  have hpar : (scanLoop cfg initState (ls.map mkData)).linesRead % 2 ≠ 0 := by
    rw [hlr]; omega
  constructor
  · rw [scanGo, finishScan_ret, if_pos hpar]
  · refine ⟨(scanLoop cfg initState (ls.map mkData)).events
      ++ (if 0 < (scanLoop cfg initState (ls.map mkData)).itemsThisBatch
          then [ScanEvent.submit (scanLoop cfg initState (ls.map mkData)).buf
                  (scanLoop cfg initState (ls.map mkData)).itemsThisBatch]
          else [])
      ++ [ScanEvent.done], ?_⟩
    rw [scanGo, finishScan_events]
    unfold finishTail
    rw [if_pos hpar]

/-- Witness for C8: a single data line; the scanner fatals on the parity
check and reports nothing. -/
theorem scan_odd_lines_fatal_witness :
    ((-1 : Int) < 0) ∧ (List.length ([[97]] : List (List Nat)) % 2 = 1) ∧
    ((scanGo ⟨-1, 5⟩ (([[97]] : List (List Nat)).map mkData)).ret = none ∧
     ∃ pre, (scanGo ⟨-1, 5⟩ (([[97]] : List (List Nat)).map mkData)).events
        = pre ++ [ScanEvent.fatalLineCount]) :=
  ⟨by decide, by decide, scan_odd_lines_fatal ⟨-1, 5⟩ (by decide) [[97]] (by decide)⟩
